import Mathlib

/-!
Verification development for the grading engine of the repository under review.

The Python sources embedded here (shallowly, over `List Char`, `ℚ`, `Except`):
* `app/submission/services/problem_Normalization.py` — the output judge
  (`normalize_space`, `compare_hard`, `compare_space`, `compare_regex`, `compare`);
* `app/submission/services/code_compiler.py` — the execution sandbox
  (`_sample_peak_rss`, `CodeRunner._compile_code`, `CodeRunner._run_test_case`,
  `CodeRunner._check_runtime`, `CodeRunner.run_code`);
* `aprofi_backend-jy-v0-test/app/submission/services/condition_utils.py` —
  the score aggregator (`distribute_condition_scores`);
* `aprofi_backend-jy-v0-test/app/submission/services/problem_condition_checker.py`
  — the condition checker (`ConditionChecker.check_*`);
* `app/submission/services/ai_feedback.py` — the `all_status` computation of
  `AIFeedbackService.generate_for_problem_type`.

Strings are modelled through their character lists; Python `float` arithmetic is
idealised as `ℚ` with `round(x, 2)` modelled as round-half-to-even at two
decimals; Python exceptions are modelled with `Except`; the Python regex engine
appears abstractly where a pattern's match function is not itself under test.
-/

namespace Grading

/-- The set of characters Python treats as whitespace on `str` values: the
characters matched by the regex class for whitespace and stripped by
`str.strip()` (ASCII whitespace plus the Unicode space characters). -/
def pySpaceCodes : List UInt32 :=
  [0x20, 0x9, 0xa, 0xd, 0xb, 0xc, 0x1c, 0x1d, 0x1e, 0x1f, 0x85, 0xa0,
   0x1680, 0x2000, 0x2001, 0x2002, 0x2003, 0x2004, 0x2005, 0x2006, 0x2007,
   0x2008, 0x2009, 0x200a, 0x2028, 0x2029, 0x202f, 0x205f, 0x3000]

/-- Whether Python treats `c` as whitespace on `str` values: the characters of
`pySpaceCodes`. -/
def isPySpace (c : Char) : Bool := pySpaceCodes.contains c.val

/-- The bracket characters of the class `[\[\]\(\)\{\}]` in
`problem_Normalization.normalize_space`. -/
def isBracket (c : Char) : Bool :=
  c = '[' || c = ']' || c = '(' || c = ')' || c = '{' || c = '}'

/-- Drop a leading whitespace run: the left half of `str.strip()`, and the
helper used to model a greedy whitespace star in the regex substitutions. -/
def dropWs : List Char → List Char
  | [] => []
  | c :: cs => if isPySpace c then dropWs cs else c :: cs

/-- `text.replace('\n', ' ')`. -/
def replaceNL (l : List Char) : List Char :=
  l.map (fun c => if c = '\n' then ' ' else c)

/-- `re.sub(r'\s+', ' ', text)`: every maximal whitespace run becomes a single
space.  The scan emits the single space at the end of each run, which yields
the same output as the regex substitution. -/
def collapseWs : List Char → List Char
  | [] => []
  | [c] => if isPySpace c then [' '] else [c]
  | c :: d :: cs =>
    if isPySpace c then
      if isPySpace d then collapseWs (d :: cs)
      else ' ' :: collapseWs (d :: cs)
    else c :: collapseWs (d :: cs)

theorem dropWs_length_le (l : List Char) : (dropWs l).length ≤ l.length := by
  induction l with
  | nil => simp [dropWs]
  | cons c cs ih =>
    simp only [dropWs]
    split
    · exact ih.trans (Nat.le_succ _)
    · exact Nat.le_refl _

/-- `re.sub(r'\s*([\[\]\(\)\{\}])\s*', r'\1', text)`: scanning left to right,
each bracket character together with the whitespace runs immediately around it
is replaced by the bracket alone; a whitespace run not reaching a bracket is
kept and scanning moves on by one character, mirroring the regex engine's
leftmost-match search (backtracking inside the run can never produce a match,
since no whitespace character is a bracket). -/
def bracketSub : List Char → List Char
  | [] => []
  | c :: cs =>
    if isBracket c then c :: bracketSub (dropWs cs)
    else if isPySpace c then
      match h : dropWs cs with
      | b :: rest =>
        if isBracket b then b :: bracketSub (dropWs rest)
        else c :: bracketSub cs
      | [] => c :: bracketSub cs
    else c :: bracketSub cs
termination_by l => l.length
decreasing_by
  · exact Nat.lt_succ_of_le (dropWs_length_le cs)
  · have h1 : (dropWs rest).length ≤ rest.length := dropWs_length_le rest
    have h2 : (b :: rest).length ≤ cs.length := h ▸ dropWs_length_le cs
    simp only [List.length_cons] at h2 ⊢
    omega
  · simp
  · simp
  · simp

/-- `re.sub(r',\s*', ',', text)`: whitespace directly after a comma is removed,
one character at a time while the scan stays at the comma (the greedy star of
the regex consumes the whole run). -/
def commaSub : List Char → List Char
  | [] => []
  | [c] => [c]
  | c :: d :: cs =>
    if c = ',' && isPySpace d then commaSub (c :: cs)
    else c :: commaSub (d :: cs)
termination_by l => l.length
decreasing_by
  · simp
  · simp

/-- Drop a trailing whitespace run: the right half of `str.strip()`. -/
def stripEnd (l : List Char) : List Char :=
  (dropWs l.reverse).reverse

/-- `s.strip()` on the character list. -/
def pyStripL (l : List Char) : List Char :=
  stripEnd (dropWs l)

/-- `s.strip()`. -/
def pyStrip (s : String) : String :=
  ⟨pyStripL s.data⟩

/-- `problem_Normalization.normalize_space`:  replace newlines by spaces,
collapse whitespace runs, delete whitespace around brackets, delete whitespace
after commas, then strip. -/
def normalize_space (s : String) : String :=
  ⟨pyStripL (commaSub (bracketSub (collapseWs (replaceNL s.data))))⟩

/-- `RatingMode` of `problem_Normalization.py`. -/
inductive RatingMode where
  | HARD
  | SPACE
  | REGEX
  | NONE
deriving DecidableEq, Repr

/-- The Python regex engine as seen by `compare_regex`: compiling a pattern
(with the DOTALL and MULTILINE flags) either fails (`none`, the `re.error`
case) or yields a total `fullmatch` predicate on strings. -/
structure RegexEngine where
  compile : String → Option (String → Bool)

/-- `problem_Normalization.compare_hard`. -/
def compare_hard (output expected : String) : Bool :=
  pyStrip output = pyStrip expected

/-- `problem_Normalization.compare_space`. -/
def compare_space (output expected : String) : Bool :=
  normalize_space output = normalize_space expected

/-- `problem_Normalization.compare_regex`: compile the stripped expected string
as a pattern; on `re.error` return `False`, otherwise test `fullmatch` against
the stripped output. -/
def compare_regex (E : RegexEngine) (output expected : String) : Bool :=
  match E.compile (pyStrip expected) with
  | some fullmatch => fullmatch (pyStrip output)
  | none => false

/-- `problem_Normalization.compare`.  The trailing `return False` of the source
is unreachable for a well-typed `RatingMode`; the four enum branches are
transcribed. -/
def compare (E : RegexEngine) (output expected : String) (mode : RatingMode) : Bool :=
  match mode with
  | .HARD => compare_hard output expected
  | .SPACE => compare_space output expected
  | .REGEX => compare_regex E output expected
  | .NONE => true

/-! ### Shape of `normalize_space` output

The pipeline output is characterised by: every whitespace character is a plain
space, no two adjacent whitespace characters, no whitespace adjacent to a
bracket, no whitespace directly after a comma, and no whitespace at either
end.  Each stage of the pipeline is the identity on lists of that shape, which
yields idempotence. -/

/-- Adjacent characters are not both whitespace. -/
def RnoWW (a b : Char) : Prop :=
  ¬(isPySpace a = true ∧ isPySpace b = true)

/-- No whitespace adjacent to a bracket, on either side. -/
def RnoBrW (a b : Char) : Prop :=
  ¬(isPySpace a = true ∧ isBracket b = true) ∧ ¬(isBracket a = true ∧ isPySpace b = true)

/-- No whitespace directly after a comma. -/
def RnoCW (a b : Char) : Prop :=
  ¬(a = ',' ∧ isPySpace b = true)

/-- Every whitespace character in the list is the plain space. -/
def WsIsSpace (l : List Char) : Prop :=
  ∀ c ∈ l, isPySpace c = true → c = ' '

theorem bracket_not_space {c : Char} (h : isBracket c = true) : isPySpace c = false := by
  simp only [isBracket, Bool.or_eq_true, decide_eq_true_eq] at h
  rcases h with ((((h | h) | h) | h) | h) | h <;> subst h <;> decide

theorem comma_not_space : isPySpace ',' = false := by decide

theorem comma_not_bracket : isBracket ',' = false := by decide

theorem space_is_space : isPySpace ' ' = true := by decide

theorem newline_is_space : isPySpace '\n' = true := by decide

/-! ### `dropWs` -/

theorem dropWs_suffix (l : List Char) : dropWs l <:+ l := by
  induction l with
  | nil => simp [dropWs]
  | cons c cs ih =>
    simp only [dropWs]
    split
    · exact ih.trans (List.suffix_cons c cs)
    · exact List.suffix_refl _

theorem dropWs_subset {x : Char} {l : List Char} (h : x ∈ dropWs l) : x ∈ l :=
  (dropWs_suffix l).subset h

theorem dropWs_head {l : List Char} {c : Char} (h : (dropWs l).head? = some c) :
    isPySpace c = false := by
  induction l with
  | nil => simp [dropWs] at h
  | cons d cs ih =>
    simp only [dropWs] at h
    revert h
    split
    · exact ih
    · intro h
      simp only [List.head?_cons, Option.some.injEq] at h
      subst h
      simpa using Bool.of_not_eq_true (by assumption)

theorem dropWs_eq_self {l : List Char}
    (h : ∀ c, l.head? = some c → isPySpace c = false) : dropWs l = l := by
  cases l with
  | nil => rfl
  | cons c cs => simp [dropWs, h c rfl]

theorem chain'_dropWs {R : Char → Char → Prop} {l : List Char}
    (h : List.Chain' R l) : List.Chain' R (dropWs l) :=
  h.suffix (dropWs_suffix l)

/-! ### `collapseWs` -/

theorem collapseWs_wsIsSpace (l : List Char) : WsIsSpace (collapseWs l) := by
  induction l using collapseWs.induct with
  | case1 => intro c hc; simp [collapseWs] at hc
  | case2 c hc =>
    intro x hx
    simp only [collapseWs, if_pos hc, List.mem_singleton] at hx
    subst hx
    intro _; rfl
  | case3 c hc =>
    intro x hx
    simp only [collapseWs, if_neg hc, List.mem_singleton] at hx
    subst hx
    intro hw
    exact absurd hw hc
  | case4 c d cs hc hd ih =>
    simpa [collapseWs, hc, hd] using ih
  | case5 c d cs hc hd ih =>
    intro x hx
    simp only [collapseWs, if_pos hc, if_neg hd] at hx
    rcases List.mem_cons.mp hx with h | h
    · subst h; intro _; rfl
    · exact ih x h
  | case6 c d cs hc ih =>
    intro x hx
    simp only [collapseWs, if_neg hc] at hx
    rcases List.mem_cons.mp hx with h | h
    · subst h
      intro hw
      exact absurd hw hc
    · exact ih x h

theorem collapseWs_head_of_not_ws {c : Char} (cs : List Char) (hc : isPySpace c = false) :
    (collapseWs (c :: cs)).head? = some c := by
  cases cs with
  | nil => simp [collapseWs, hc]
  | cons d cs => simp [collapseWs, hc]

theorem collapseWs_chain (l : List Char) : List.Chain' RnoWW (collapseWs l) := by
  induction l using collapseWs.induct with
  | case1 => simp [collapseWs]
  | case2 c hc => simp [collapseWs, if_pos hc]
  | case3 c hc => simp [collapseWs, if_neg hc]
  | case4 c d cs hc hd ih =>
    simpa [collapseWs, hc, hd] using ih
  | case5 c d cs hc hd ih =>
    simp only [collapseWs, if_pos hc, if_neg hd]
    rw [List.chain'_cons']
    refine ⟨?_, ih⟩
    intro y hy
    rw [collapseWs_head_of_not_ws cs (by simpa using hd)] at hy
    simp only [Option.mem_def, Option.some.injEq] at hy
    subst hy
    intro hcon
    exact hd hcon.2
  | case6 c d cs hc ih =>
    simp only [collapseWs, if_neg hc]
    rw [List.chain'_cons']
    refine ⟨?_, ih⟩
    intro y hy hcon
    exact hc hcon.1

theorem collapseWs_eq_self {l : List Char} (hws : WsIsSpace l)
    (hch : List.Chain' RnoWW l) : collapseWs l = l := by
  induction l using collapseWs.induct with
  | case1 => rfl
  | case2 c hc =>
    simp only [collapseWs, if_pos hc]
    rw [hws c (by simp) hc]
  | case3 c hc => simp [collapseWs, if_neg hc]
  | case4 c d cs hc hd ih =>
    exfalso
    exact (List.chain'_cons.mp hch).1 ⟨hc, hd⟩
  | case5 c d cs hc hd ih =>
    simp only [collapseWs, if_pos hc, if_neg hd]
    rw [hws c (by simp) hc,
      ih (fun x hx => hws x (List.mem_cons_of_mem _ hx)) (List.chain'_cons.mp hch).2]
  | case6 c d cs hc ih =>
    simp only [collapseWs, if_neg hc]
    rw [ih (fun x hx => hws x (List.mem_cons_of_mem _ hx)) (List.chain'_cons.mp hch).2]

/-! ### `bracketSub` -/

theorem bracketSub_cons_br {c : Char} (cs : List Char) (h : isBracket c = true) :
    bracketSub (c :: cs) = c :: bracketSub (dropWs cs) := by
  rw [bracketSub.eq_def]
  simp [h]

theorem bracketSub_cons_other {c : Char} (cs : List Char) (h1 : isBracket c = false)
    (h2 : isPySpace c = false) : bracketSub (c :: cs) = c :: bracketSub cs := by
  rw [bracketSub.eq_def]
  simp [h1, h2]

theorem bracketSub_cons_ws_br {c b : Char} {cs rest : List Char} (h1 : isBracket c = false)
    (h2 : isPySpace c = true) (hd : dropWs cs = b :: rest) (hb : isBracket b = true) :
    bracketSub (c :: cs) = b :: bracketSub (dropWs rest) := by
  rw [bracketSub.eq_def]
  simp only [h1, h2, Bool.false_eq_true, if_false, if_true]
  split
  · rename_i b' rest' hd'
    rw [hd] at hd'
    cases hd'
    simp [hb]
  · rename_i hd'
    rw [hd] at hd'
    cases hd'

theorem bracketSub_cons_ws_nobr {c b : Char} {cs rest : List Char} (h1 : isBracket c = false)
    (h2 : isPySpace c = true) (hd : dropWs cs = b :: rest) (hb : isBracket b = false) :
    bracketSub (c :: cs) = c :: bracketSub cs := by
  rw [bracketSub.eq_def]
  simp only [h1, h2, Bool.false_eq_true, if_false, if_true]
  split
  · rename_i b' rest' hd'
    rw [hd] at hd'
    cases hd'
    simp [hb]
  · rfl

theorem bracketSub_cons_ws_nil {c : Char} {cs : List Char} (h1 : isBracket c = false)
    (h2 : isPySpace c = true) (hd : dropWs cs = []) :
    bracketSub (c :: cs) = c :: bracketSub cs := by
  rw [bracketSub.eq_def]
  simp only [h1, h2, Bool.false_eq_true, if_false, if_true]
  split
  · rename_i b' rest' hd'
    rw [hd] at hd'
    cases hd'
  · rfl

theorem bracketSub_subset {l : List Char} {x : Char} (hx : x ∈ bracketSub l) : x ∈ l := by
  induction l using bracketSub.induct with
  | case1 => simpa [bracketSub] using hx
  | case2 c cs hc ih =>
    rw [bracketSub_cons_br cs hc] at hx
    rcases List.mem_cons.mp hx with h | h
    · simp [h]
    · exact List.mem_cons_of_mem _ (dropWs_subset (ih h))
  | case3 c cs hc hw b rest hd hb ih =>
    rw [bracketSub_cons_ws_br (Bool.not_eq_true _ ▸ hc) hw hd hb] at hx
    rcases List.mem_cons.mp hx with h | h
    · subst h
      exact List.mem_cons_of_mem _ (dropWs_subset (hd ▸ List.mem_cons_self x rest))
    · have : x ∈ rest := dropWs_subset (ih h)
      exact List.mem_cons_of_mem _ (dropWs_subset (hd ▸ List.mem_cons_of_mem b this))
  | case4 c cs hc hw b rest hd hb ih =>
    rw [bracketSub_cons_ws_nobr (Bool.not_eq_true _ ▸ hc) hw hd (Bool.not_eq_true _ ▸ hb)] at hx
    rcases List.mem_cons.mp hx with h | h
    · simp [h]
    · exact List.mem_cons_of_mem _ (ih h)
  | case5 c cs hc hw hd ih =>
    rw [bracketSub_cons_ws_nil (Bool.not_eq_true _ ▸ hc) hw hd] at hx
    rcases List.mem_cons.mp hx with h | h
    · simp [h]
    · exact List.mem_cons_of_mem _ (ih h)
  | case6 c cs hc hw ih =>
    rw [bracketSub_cons_other cs (Bool.not_eq_true _ ▸ hc) (Bool.not_eq_true _ ▸ hw)] at hx
    rcases List.mem_cons.mp hx with h | h
    · simp [h]
    · exact List.mem_cons_of_mem _ (ih h)

theorem bracketSub_head_of_not_ws {c : Char} (cs : List Char) (hc : isPySpace c = false) :
    (bracketSub (c :: cs)).head? = some c := by
  cases hbr : isBracket c with
  | true => rw [bracketSub_cons_br cs hbr]; rfl
  | false => rw [bracketSub_cons_other cs hbr hc]; rfl

/-- The head of `bracketSub` output is never whitespace when the input comes
from `dropWs`. -/
theorem bracketSub_dropWs_head {l : List Char} {y : Char}
    (hy : (bracketSub (dropWs l)).head? = some y) : isPySpace y = false := by
  cases hd : dropWs l with
  | nil => rw [hd] at hy; simp [bracketSub] at hy
  | cons b t =>
    have hb : isPySpace b = false := dropWs_head (l := l) (by rw [hd]; rfl)
    rw [hd, bracketSub_head_of_not_ws t hb] at hy
    cases hy
    exact hb

theorem bracketSub_nil : bracketSub [] = [] := by
  rw [bracketSub.eq_def]

theorem rnoWW_of_left {a : Char} (h : isPySpace a = false) (b : Char) : RnoWW a b := by
  intro hcon
  rw [h] at hcon
  exact Bool.false_ne_true hcon.1

theorem rnoWW_of_right {b : Char} (h : isPySpace b = false) (a : Char) : RnoWW a b := by
  intro hcon
  rw [h] at hcon
  exact Bool.false_ne_true hcon.2

theorem rnoBrW_of_not_ws {a b : Char} (ha : isPySpace a = false)
    (hb : isPySpace b = false) : RnoBrW a b := by
  constructor
  · intro hcon; rw [ha] at hcon; exact Bool.false_ne_true hcon.1
  · intro hcon; rw [hb] at hcon; exact Bool.false_ne_true hcon.2

theorem rnoBrW_of_plain {a : Char} (h1 : isPySpace a = false) (h2 : isBracket a = false)
    (b : Char) : RnoBrW a b := by
  constructor
  · intro hcon; rw [h1] at hcon; exact Bool.false_ne_true hcon.1
  · intro hcon; rw [h2] at hcon; exact Bool.false_ne_true hcon.1

theorem rnoBrW_of_right_plain {b : Char} (h1 : isPySpace b = false)
    (h2 : isBracket b = false) (a : Char) : RnoBrW a b := by
  constructor
  · intro hcon; rw [h2] at hcon; exact Bool.false_ne_true hcon.2
  · intro hcon; rw [h1] at hcon; exact Bool.false_ne_true hcon.2

theorem not_ws_of_rnoWW {a b : Char} (h : RnoWW a b) (ha : isPySpace a = true) :
    isPySpace b = false := by
  cases hb : isPySpace b with
  | true => exact absurd ⟨ha, hb⟩ h
  | false => rfl

theorem bracketSub_chains {l : List Char} (h1 : List.Chain' RnoWW l) :
    List.Chain' RnoWW (bracketSub l) ∧ List.Chain' RnoBrW (bracketSub l) := by
  induction l using bracketSub.induct with
  | case1 => rw [bracketSub_nil]; exact ⟨List.chain'_nil, List.chain'_nil⟩
  | case2 c cs hc ih =>
    obtain ⟨ihWW, ihBr⟩ := ih (chain'_dropWs (List.chain'_cons'.mp h1).2)
    rw [bracketSub_cons_br cs hc]
    have hcws : isPySpace c = false := bracket_not_space hc
    constructor
    · rw [List.chain'_cons']
      exact ⟨fun y _ => rnoWW_of_left hcws y, ihWW⟩
    · rw [List.chain'_cons']
      refine ⟨fun y hy => ?_, ihBr⟩
      exact rnoBrW_of_not_ws hcws (bracketSub_dropWs_head (Option.mem_def.mp hy))
  | case3 c cs hc hw b rest hd hb ih =>
    have hcs : List.Chain' RnoWW (dropWs cs) := chain'_dropWs (List.chain'_cons'.mp h1).2
    rw [hd] at hcs
    obtain ⟨ihWW, ihBr⟩ := ih (chain'_dropWs (List.chain'_cons'.mp hcs).2)
    rw [bracketSub_cons_ws_br (Bool.not_eq_true _ ▸ hc) hw hd hb]
    have hbws : isPySpace b = false := bracket_not_space hb
    constructor
    · rw [List.chain'_cons']
      exact ⟨fun y _ => rnoWW_of_left hbws y, ihWW⟩
    · rw [List.chain'_cons']
      refine ⟨fun y hy => ?_, ihBr⟩
      exact rnoBrW_of_not_ws hbws (bracketSub_dropWs_head (Option.mem_def.mp hy))
  | case4 c cs hc hw b rest hd hb ih =>
    obtain ⟨ihWW, ihBr⟩ := ih (List.chain'_cons'.mp h1).2
    rw [bracketSub_cons_ws_nobr (Bool.not_eq_true _ ▸ hc) hw hd (Bool.not_eq_true _ ▸ hb)]
    cases cs with
    | nil => simp [dropWs] at hd
    | cons e cs' =>
      have hew : isPySpace e = false :=
        not_ws_of_rnoWW ((List.chain'_cons'.mp h1).1 e rfl) hw
      have hde : dropWs (e :: cs') = e :: cs' := by simp [dropWs, hew]
      rw [hde] at hd
      have hbe : b = e := (List.cons.injEq _ _ _ _ ▸ hd).1.symm
      subst hbe
      constructor
      · rw [List.chain'_cons']
        refine ⟨fun y hy => ?_, ihWW⟩
        rw [bracketSub_head_of_not_ws cs' hew] at hy
        cases Option.mem_def.mp hy
        exact rnoWW_of_right hew c
      · rw [List.chain'_cons']
        refine ⟨fun y hy => ?_, ihBr⟩
        rw [bracketSub_head_of_not_ws cs' hew] at hy
        cases Option.mem_def.mp hy
        exact rnoBrW_of_right_plain hew (Bool.not_eq_true _ ▸ hb) c
  | case5 c cs hc hw hd ih =>
    rw [bracketSub_cons_ws_nil (Bool.not_eq_true _ ▸ hc) hw hd]
    cases cs with
    | nil =>
      rw [bracketSub_nil]
      exact ⟨List.chain'_singleton c, List.chain'_singleton c⟩
    | cons e cs' =>
      exfalso
      have hew : isPySpace e = false :=
        not_ws_of_rnoWW ((List.chain'_cons'.mp h1).1 e rfl) hw
      simp [dropWs, hew] at hd
  | case6 c cs hc hw ih =>
    obtain ⟨ihWW, ihBr⟩ := ih (List.chain'_cons'.mp h1).2
    rw [bracketSub_cons_other cs (Bool.not_eq_true _ ▸ hc) (Bool.not_eq_true _ ▸ hw)]
    constructor
    · rw [List.chain'_cons']
      exact ⟨fun y _ => rnoWW_of_left (Bool.not_eq_true _ ▸ hw) y, ihWW⟩
    · rw [List.chain'_cons']
      exact ⟨fun y _ =>
        rnoBrW_of_plain (Bool.not_eq_true _ ▸ hw) (Bool.not_eq_true _ ▸ hc) y, ihBr⟩

theorem bracketSub_eq_self {l : List Char} (h1 : List.Chain' RnoWW l)
    (h2 : List.Chain' RnoBrW l) : bracketSub l = l := by
  induction l using bracketSub.induct with
  | case1 => exact bracketSub_nil
  | case2 c cs hc ih =>
    rw [bracketSub_cons_br cs hc]
    have hde : dropWs cs = cs := by
      cases cs with
      | nil => rfl
      | cons e cs' =>
        have : ¬(isBracket c = true ∧ isPySpace e = true) :=
          ((List.chain'_cons'.mp h2).1 e rfl).2
        have hew : isPySpace e = false := by
          cases hev : isPySpace e with
          | true => exact absurd ⟨hc, hev⟩ this
          | false => rfl
        simp [dropWs, hew]
    rw [hde] at ih ⊢
    rw [ih (List.chain'_cons'.mp h1).2 (List.chain'_cons'.mp h2).2]
  | case3 c cs hc hw b rest hd hb ih =>
    exfalso
    cases cs with
    | nil => simp [dropWs] at hd
    | cons e cs' =>
      have hew : isPySpace e = false :=
        not_ws_of_rnoWW ((List.chain'_cons'.mp h1).1 e rfl) hw
      rw [show dropWs (e :: cs') = e :: cs' by simp [dropWs, hew]] at hd
      have hbe : b = e := (List.cons.injEq _ _ _ _ ▸ hd).1.symm
      subst hbe
      exact ((List.chain'_cons'.mp h2).1 b rfl).1 ⟨hw, hb⟩
  | case4 c cs hc hw b rest hd hb ih =>
    rw [bracketSub_cons_ws_nobr (Bool.not_eq_true _ ▸ hc) hw hd (Bool.not_eq_true _ ▸ hb)]
    rw [ih (List.chain'_cons'.mp h1).2 (List.chain'_cons'.mp h2).2]
  | case5 c cs hc hw hd ih =>
    rw [bracketSub_cons_ws_nil (Bool.not_eq_true _ ▸ hc) hw hd]
    rw [ih (List.chain'_cons'.mp h1).2 (List.chain'_cons'.mp h2).2]
  | case6 c cs hc hw ih =>
    rw [bracketSub_cons_other cs (Bool.not_eq_true _ ▸ hc) (Bool.not_eq_true _ ▸ hw)]
    rw [ih (List.chain'_cons'.mp h1).2 (List.chain'_cons'.mp h2).2]

/-! ### `commaSub` -/

theorem commaSub_nil : commaSub [] = [] := by
  rw [commaSub.eq_def]

theorem commaSub_single (c : Char) : commaSub [c] = [c] := by
  rw [commaSub.eq_def]

theorem commaSub_cons_del {d : Char} (cs : List Char) (hd : isPySpace d = true) :
    commaSub (',' :: d :: cs) = commaSub (',' :: cs) := by
  rw [commaSub.eq_def]
  simp [hd]

theorem commaSub_cons_keep {c d : Char} (cs : List Char) (h : ¬(c = ',' ∧ isPySpace d = true)) :
    commaSub (c :: d :: cs) = c :: commaSub (d :: cs) := by
  rw [commaSub.eq_def]
  have hcond : (decide (c = ',') && isPySpace d) = false := by
    rcases Decidable.em (c = ',') with hc | hc
    · cases hdv : isPySpace d with
      | true => exact absurd ⟨hc, hdv⟩ h
      | false => simp [hc, hdv]
    · simp [hc]
  simp [hcond]

theorem commaSub_head (l : List Char) : (commaSub l).head? = l.head? := by
  induction l using commaSub.induct with
  | case1 => rw [commaSub_nil]
  | case2 c => rw [commaSub_single]
  | case3 c d cs h ih =>
    obtain ⟨hc, hd⟩ : c = ',' ∧ isPySpace d = true := by simpa using h
    subst hc
    rw [commaSub_cons_del cs hd, ih]
    rfl
  | case4 c d cs h ih =>
    rw [commaSub_cons_keep cs (by simpa using h)]
    rfl

theorem commaSub_subset {l : List Char} {x : Char} (hx : x ∈ commaSub l) : x ∈ l := by
  induction l using commaSub.induct with
  | case1 => rw [commaSub_nil] at hx; exact hx
  | case2 c => rw [commaSub_single] at hx; exact hx
  | case3 c d cs h ih =>
    obtain ⟨hc, hd⟩ : c = ',' ∧ isPySpace d = true := by simpa using h
    subst hc
    rw [commaSub_cons_del cs hd] at hx
    rcases List.mem_cons.mp (ih hx) with h' | h'
    · simp [h']
    · exact List.mem_cons_of_mem _ (List.mem_cons_of_mem _ h')
  | case4 c d cs h ih =>
    rw [commaSub_cons_keep cs (by simpa using h)] at hx
    rcases List.mem_cons.mp hx with h' | h'
    · simp [h']
    · exact List.mem_cons_of_mem _ (ih h')

theorem rnoCW_of_not_comma {a : Char} (h : ¬a = ',') (b : Char) : RnoCW a b := by
  intro hcon
  exact h hcon.1

theorem rnoCW_of_right {b : Char} (h : isPySpace b = false) (a : Char) : RnoCW a b := by
  intro hcon
  rw [h] at hcon
  exact Bool.false_ne_true hcon.2

theorem comma_chain_cons {R : Char → Char → Prop} {l : List Char}
    (hhead : ∀ y, R ',' y) (htail : List.Chain' R l) : List.Chain' R (',' :: l) := by
  rw [List.chain'_cons']
  exact ⟨fun y _ => hhead y, htail⟩

theorem commaSub_chains {l : List Char} (h1 : List.Chain' RnoWW l)
    (h2 : List.Chain' RnoBrW l) :
    List.Chain' RnoWW (commaSub l) ∧ List.Chain' RnoBrW (commaSub l) ∧
      List.Chain' RnoCW (commaSub l) := by
  induction l using commaSub.induct with
  | case1 =>
    rw [commaSub_nil]
    exact ⟨List.chain'_nil, List.chain'_nil, List.chain'_nil⟩
  | case2 c =>
    rw [commaSub_single]
    exact ⟨List.chain'_singleton c, List.chain'_singleton c, List.chain'_singleton c⟩
  | case3 c d cs h ih =>
    obtain ⟨hc, hd⟩ : c = ',' ∧ isPySpace d = true := by simpa using h
    subst hc
    rw [commaSub_cons_del cs hd]
    have hcs : List.Chain' RnoWW cs := (List.chain'_cons'.mp (List.chain'_cons'.mp h1).2).2
    have hcs2 : List.Chain' RnoBrW cs := (List.chain'_cons'.mp (List.chain'_cons'.mp h2).2).2
    exact ih (comma_chain_cons (rnoWW_of_left comma_not_space) hcs)
      (comma_chain_cons (rnoBrW_of_plain comma_not_space comma_not_bracket) hcs2)
  | case4 c d cs h ih =>
    have hne : ¬(c = ',' ∧ isPySpace d = true) := by simpa using h
    rw [commaSub_cons_keep cs hne]
    obtain ⟨ihWW, ihBr, ihCW⟩ := ih (List.chain'_cons'.mp h1).2 (List.chain'_cons'.mp h2).2
    have hhd : (commaSub (d :: cs)).head? = some d := by rw [commaSub_head]; rfl
    refine ⟨?_, ?_, ?_⟩
    · rw [List.chain'_cons']
      refine ⟨fun y hy => ?_, ihWW⟩
      rw [hhd] at hy
      cases Option.mem_def.mp hy
      exact (List.chain'_cons'.mp h1).1 d rfl
    · rw [List.chain'_cons']
      refine ⟨fun y hy => ?_, ihBr⟩
      rw [hhd] at hy
      cases Option.mem_def.mp hy
      exact (List.chain'_cons'.mp h2).1 d rfl
    · rw [List.chain'_cons']
      refine ⟨fun y hy => ?_, ihCW⟩
      rw [hhd] at hy
      cases Option.mem_def.mp hy
      intro hcon
      exact hne hcon

theorem commaSub_eq_self {l : List Char} (h3 : List.Chain' RnoCW l) : commaSub l = l := by
  induction l using commaSub.induct with
  | case1 => exact commaSub_nil
  | case2 c => exact commaSub_single c
  | case3 c d cs h ih =>
    exfalso
    obtain ⟨hc, hd⟩ : c = ',' ∧ isPySpace d = true := by simpa using h
    subst hc
    exact ((List.chain'_cons'.mp h3).1 d rfl) ⟨rfl, hd⟩
  | case4 c d cs h ih =>
    rw [commaSub_cons_keep cs (by simpa using h)]
    rw [ih (List.chain'_cons'.mp h3).2]

/-! ### `pyStripL` -/

theorem stripEnd_isPrefixOf (l : List Char) : stripEnd l <+: l := by
  obtain ⟨t, ht⟩ := dropWs_suffix l.reverse
  exact ⟨t.reverse, by
    show (dropWs l.reverse).reverse ++ t.reverse = l
    rw [← List.reverse_append, ht, List.reverse_reverse]⟩

theorem head_eq_of_pre {p l : List Char} {c : Char} (hp : p <+: l)
    (hc : p.head? = some c) : l.head? = some c := by
  obtain ⟨t, rfl⟩ := hp
  cases p with
  | nil => cases hc
  | cons a p' =>
    cases hc
    rfl

theorem pyStripL_chain {R : Char → Char → Prop} {l : List Char}
    (h : List.Chain' R l) : List.Chain' R (pyStripL l) :=
  List.Chain'.prefix (h.suffix (dropWs_suffix l)) (stripEnd_isPrefixOf (dropWs l))

theorem pyStripL_subset {l : List Char} {x : Char} (hx : x ∈ pyStripL l) : x ∈ l :=
  (dropWs_suffix l).subset ((stripEnd_isPrefixOf (dropWs l)).subset hx)

theorem pyStripL_head {l : List Char} {c : Char} (hc : (pyStripL l).head? = some c) :
    isPySpace c = false :=
  dropWs_head (head_eq_of_pre (stripEnd_isPrefixOf (dropWs l)) hc)

theorem pyStripL_last {l : List Char} {c : Char} (hc : (pyStripL l).getLast? = some c) :
    isPySpace c = false := by
  have h : (dropWs (dropWs l).reverse).reverse.getLast? = some c := hc
  rw [List.getLast?_reverse] at h
  exact dropWs_head h

theorem pyStripL_eq_self {l : List Char}
    (hh : ∀ c, l.head? = some c → isPySpace c = false)
    (hl : ∀ c, l.getLast? = some c → isPySpace c = false) : pyStripL l = l := by
  unfold pyStripL stripEnd
  rw [dropWs_eq_self hh]
  rw [dropWs_eq_self (fun c hc => hl c (by rwa [List.head?_reverse] at hc))]
  exact List.reverse_reverse l

/-! ### The shape invariant and idempotence -/

/-- The shape of every `normalize_space` output: only plain spaces as
whitespace, no two adjacent whitespace characters, none adjacent to a bracket,
none directly after a comma, none at either end. -/
def NormalizedL (l : List Char) : Prop :=
  WsIsSpace l ∧ List.Chain' RnoWW l ∧ List.Chain' RnoBrW l ∧ List.Chain' RnoCW l ∧
    (∀ c, l.head? = some c → isPySpace c = false) ∧
    (∀ c, l.getLast? = some c → isPySpace c = false)

/-- The character-list core of `normalize_space`. -/
def normCore (l : List Char) : List Char :=
  pyStripL (commaSub (bracketSub (collapseWs (replaceNL l))))

theorem normalize_space_data (s : String) : normalize_space s = ⟨normCore s.data⟩ := rfl

theorem normCore_normalized (l : List Char) : NormalizedL (normCore l) := by
  have h1 : WsIsSpace (collapseWs (replaceNL l)) := collapseWs_wsIsSpace _
  have h2 : List.Chain' RnoWW (collapseWs (replaceNL l)) := collapseWs_chain _
  obtain ⟨h3, h4⟩ := bracketSub_chains h2
  have h5 : WsIsSpace (bracketSub (collapseWs (replaceNL l))) :=
    fun c hc => h1 c (bracketSub_subset hc)
  obtain ⟨h6, h7, h8⟩ := commaSub_chains h3 h4
  have h9 : WsIsSpace (commaSub (bracketSub (collapseWs (replaceNL l)))) :=
    fun c hc => h5 c (commaSub_subset hc)
  refine ⟨fun c hc => h9 c (pyStripL_subset hc), pyStripL_chain h6, pyStripL_chain h7,
    pyStripL_chain h8, ?_, ?_⟩
  · exact fun c hc => pyStripL_head hc
  · exact fun c hc => pyStripL_last hc

theorem replaceNL_eq_self {l : List Char} (hws : WsIsSpace l) : replaceNL l = l := by
  induction l with
  | nil => rfl
  | cons c cs ih =>
    have hc : (if c = '\n' then ' ' else c) = c := by
      rcases Decidable.em (c = '\n') with h | h
      · subst h
        cases hws '\n' (by simp) newline_is_space
      · simp [h]
    show (if c = '\n' then ' ' else c) :: replaceNL cs = c :: cs
    rw [hc, ih (fun x hx => hws x (List.mem_cons_of_mem _ hx))]

theorem normCore_eq_self {l : List Char} (h : NormalizedL l) : normCore l = l := by
  obtain ⟨hws, h1, h2, h3, hh, hl⟩ := h
  unfold normCore
  rw [replaceNL_eq_self hws, collapseWs_eq_self hws h1, bracketSub_eq_self h1 h2,
    commaSub_eq_self h3, pyStripL_eq_self hh hl]

/-- **C10.** The SPACE-mode normalization function of the output judge is
idempotent: normalizing twice equals normalizing once, for every string. -/
theorem normalize_space_idem (s : String) :
    normalize_space (normalize_space s) = normalize_space s := by
  rw [normalize_space_data s, normalize_space_data ⟨normCore s.data⟩]
  exact congrArg String.mk (normCore_eq_self (normCore_normalized s.data))

/-! ### Score aggregator: `condition_utils.distribute_condition_scores`

Python `float` arithmetic is idealised as exact rational arithmetic and
`round(x, 2)` as round-half-to-even at two decimal places. -/

/-- Round half to even (Python `round` to an integer), idealised on `ℚ`. -/
def roundHalfEven (q : ℚ) : ℤ :=
  if Int.fract q < 1/2 then ⌊q⌋
  else if 1/2 < Int.fract q then ⌊q⌋ + 1
  else if Even ⌊q⌋ then ⌊q⌋ else ⌊q⌋ + 1

/-- Python `round(x, 2)` idealised on `ℚ`. -/
def round2 (q : ℚ) : ℚ :=
  (roundHalfEven (q * 100) : ℚ) / 100

theorem roundHalfEven_intCast (n : ℤ) : roundHalfEven ((n : ℚ)) = n := by
  unfold roundHalfEven
  rw [Int.fract_intCast]
  norm_num

theorem abs_roundHalfEven_sub (q : ℚ) : |(roundHalfEven q : ℚ) - q| ≤ 1/2 := by
  have h0 : 0 ≤ Int.fract q := Int.fract_nonneg q
  have h1 : Int.fract q < 1 := Int.fract_lt_one q
  have hf : (⌊q⌋ : ℚ) = q - Int.fract q := by
    have := Int.self_sub_fract q
    linarith
  unfold roundHalfEven
  split
  · rename_i hlt
    rw [hf, abs_le]
    constructor <;> linarith
  · rename_i hge
    split
    · rename_i hgt
      push_cast
      rw [hf, abs_le]
      constructor <;> linarith
    · rename_i hle
      have heq : Int.fract q = 1/2 := le_antisymm (not_lt.mp hle) (not_lt.mp hge)
      split
      · rw [hf, heq, abs_le]
        constructor <;> linarith
      · push_cast
        rw [hf, heq, abs_le]
        constructor <;> linarith

/-- Exact multiples of one hundredth: the image of `round2`. -/
def IsCent (q : ℚ) : Prop :=
  ∃ n : ℤ, q = (n : ℚ) / 100

theorem round2_isCent (q : ℚ) : IsCent (round2 q) :=
  ⟨roundHalfEven (q * 100), rfl⟩

theorem IsCent.round2_eq {q : ℚ} (h : IsCent q) : round2 q = q := by
  obtain ⟨n, rfl⟩ := h
  unfold round2
  rw [show ((n : ℚ)/100) * 100 = (n : ℚ) by field_simp]
  rw [roundHalfEven_intCast]

theorem abs_round2_sub (q : ℚ) : |round2 q - q| ≤ 1/200 := by
  have h := abs_roundHalfEven_sub (q * 100)
  unfold round2
  rw [show (roundHalfEven (q * 100) : ℚ)/100 - q =
    ((roundHalfEven (q * 100) : ℚ) - q * 100)/100 by ring]
  rw [abs_div, show |(100:ℚ)| = 100 by norm_num]
  linarith

theorem IsCent.add {a b : ℚ} (ha : IsCent a) (hb : IsCent b) : IsCent (a + b) := by
  obtain ⟨m, rfl⟩ := ha
  obtain ⟨n, rfl⟩ := hb
  exact ⟨m + n, by push_cast; ring⟩

theorem isCent_zero : IsCent 0 :=
  ⟨0, by norm_num⟩

theorem isCent_sum {l : List ℚ} (h : ∀ x ∈ l, IsCent x) : IsCent l.sum := by
  induction l with
  | nil => simpa using isCent_zero
  | cons x xs ih =>
    rw [List.sum_cons]
    exact (h x (by simp)).add (ih fun y hy => h y (List.mem_cons_of_mem _ hy))

theorem IsCent.eq_zero_of_abs_lt {q : ℚ} (h : IsCent q) (hq : |q| < 1/100) : q = 0 := by
  obtain ⟨n, rfl⟩ := h
  have habs : |(n : ℚ)| < 1 := by
    rw [abs_div, show |(100:ℚ)| = 100 by norm_num] at hq
    linarith
  have hn : |n| < 1 := by exact_mod_cast habs
  have : n = 0 := Int.abs_lt_one_iff.mp hn
  simp [this]

/-- An item as consumed by `distribute_condition_scores`: the `passed` flag
and the `weight` field (`it.get("weight", 1.0)` with weight clamped to `≥ 0`
at use sites). -/
structure CondItem where
  passed : Bool
  weight : ℚ
deriving DecidableEq, Repr

/-- An item after score assignment (`{**it, "score": got}`). -/
structure ScoredItem where
  passed : Bool
  weight : ℚ
  score : ℚ
deriving DecidableEq, Repr

/-- `max(0.0, it.get("weight", 1.0))`. -/
def clampW (w : ℚ) : ℚ := max 0 w

/-- One iteration of the allocation loop of `distribute_condition_scores`:
`allocated = round(per_unit * w, 2)`, `got = round(allocated if passed else 0.0, 2)`. -/
def allocItem (per_unit : ℚ) (it : CondItem) : ScoredItem :=
  { passed := it.passed, weight := it.weight,
    score := round2 (if it.passed then round2 (per_unit * clampW it.weight) else 0) }

/-- The gap-correction loop of `distribute_condition_scores`: add `gap` onto
the score of the first item with `passed`, re-rounded, and stop. -/
def applyGap : List ScoredItem → ℚ → List ScoredItem
  | [], _ => []
  | it :: rest, gap =>
    if it.passed then { it with score := round2 (it.score + gap) } :: rest
    else it :: applyGap rest gap

/-- The rounding-gap correction block of `distribute_condition_scores`:
compute `gap = round(total_points - earned_sum, 2)`; when `abs(gap) >= 0.01`,
add it onto the first passing item and onto `earned_sum`. -/
def gapStage (out : List ScoredItem) (total_points : ℚ) : List ScoredItem × ℚ :=
  let earned_sum : ℚ := (out.map (fun it => it.score)).sum
  let gap : ℚ := round2 (total_points - earned_sum)
  if 1/100 ≤ |gap| then
    (applyGap out gap,
      if out.any (fun it => it.passed) then round2 (earned_sum + gap) else earned_sum)
  else
    (out, earned_sum)

/-- `condition_utils.distribute_condition_scores`.  Mirrors the source:
empty input short-circuits; `weights_sum` falls back to 1 when the clamped
sum is zero (the Python `or 1.0`); each item gets `score = allocated if
passed else 0`; when the rounding gap `total_points - earned_sum` reaches
`0.01` in absolute value it is added onto the first passing item (and onto
`earned_sum`), re-rounded. -/
def distribute_condition_scores (items : List CondItem) (total_points : ℚ) :
    List ScoredItem × ℚ :=
  if items.isEmpty then ([], 0)
  else
    let ws0 : ℚ := (items.map (fun it => clampW it.weight)).sum
    let weights_sum : ℚ := if ws0 = 0 then 1 else ws0
    let per_unit : ℚ := total_points / weights_sum
    gapStage (items.map (allocItem per_unit)) total_points

theorem round2_zero : round2 0 = 0 :=
  isCent_zero.round2_eq

theorem applyGap_no_pass {l : List ScoredItem} (gap : ℚ)
    (h : l.any (fun it => it.passed) = false) : applyGap l gap = l := by
  induction l with
  | nil => rfl
  | cons it rest ih =>
    simp only [List.any_cons, Bool.or_eq_false_iff] at h
    unfold applyGap
    rw [if_neg (by simp [h.1]), ih h.2]

theorem applyGap_sum {l : List ScoredItem} {gap : ℚ}
    (hcent : ∀ it ∈ l, IsCent it.score) (hgap : IsCent gap)
    (hany : l.any (fun it => it.passed) = true) :
    ((applyGap l gap).map (fun it => it.score)).sum =
      (l.map (fun it => it.score)).sum + gap := by
  induction l with
  | nil => simp at hany
  | cons it rest ih =>
    unfold applyGap
    cases hp : it.passed with
    | true =>
      rw [if_pos (by simp [hp])]
      simp only [List.map_cons, List.sum_cons]
      rw [((hcent it (by simp)).add hgap).round2_eq]
      ring
    | false =>
      rw [if_neg (by simp [hp])]
      simp only [List.map_cons, List.sum_cons]
      have hany' : rest.any (fun it => it.passed) = true := by
        simpa [hp] using hany
      rw [ih (fun x hx => hcent x (List.mem_cons_of_mem _ hx)) hany']
      ring

theorem gapStage_fst (out : List ScoredItem) (T : ℚ) :
    (gapStage out T).1 =
      if 1/100 ≤ |round2 (T - (out.map (fun it => it.score)).sum)| then
        applyGap out (round2 (T - (out.map (fun it => it.score)).sum))
      else out := by
  simp only [gapStage]
  rw [apply_ite Prod.fst]

theorem gapStage_snd (out : List ScoredItem) (T : ℚ) :
    (gapStage out T).2 =
      if 1/100 ≤ |round2 (T - (out.map (fun it => it.score)).sum)| then
        (if out.any (fun it => it.passed) then
          round2 ((out.map (fun it => it.score)).sum +
            round2 (T - (out.map (fun it => it.score)).sum))
        else (out.map (fun it => it.score)).sum)
      else (out.map (fun it => it.score)).sum := by
  simp only [gapStage]
  rw [apply_ite Prod.snd]

theorem gapStage_bound (out : List ScoredItem) (T : ℚ)
    (hcent : ∀ it ∈ out, IsCent it.score)
    (hany : out.any (fun it => it.passed) = true) :
    |((gapStage out T).1.map (fun it => it.score)).sum - T| ≤ 1/100 := by
  have habs := abs_round2_sub (T - (out.map (fun it => it.score)).sum)
  rw [gapStage_fst]
  rcases le_or_lt (1/100) |round2 (T - (out.map (fun it => it.score)).sum)| with hc | hc
  · rw [if_pos hc]
    rw [applyGap_sum hcent (round2_isCent _) hany]
    rw [show (out.map (fun it => it.score)).sum +
        round2 (T - (out.map (fun it => it.score)).sum) - T =
        round2 (T - (out.map (fun it => it.score)).sum) -
          (T - (out.map (fun it => it.score)).sum) by ring]
    linarith
  · rw [if_neg (not_le.mpr hc)]
    have hg0 : round2 (T - (out.map (fun it => it.score)).sum) = 0 :=
      (round2_isCent _).eq_zero_of_abs_lt hc
    rw [hg0] at habs
    rw [show (0:ℚ) - (T - (out.map (fun it => it.score)).sum) =
      (out.map (fun it => it.score)).sum - T by ring] at habs
    linarith

theorem gapStage_zero (out : List ScoredItem) (T : ℚ)
    (hz : ∀ it ∈ out, it.score = 0)
    (hany : out.any (fun it => it.passed) = false) : (gapStage out T).2 = 0 := by
  have he : (out.map (fun it => it.score)).sum = 0 :=
    List.sum_eq_zero (fun x hx => by
      obtain ⟨it, hit, rfl⟩ := List.mem_map.mp hx
      exact hz it hit)
  rw [gapStage_snd, hany]
  simp only [Bool.false_eq_true, if_false]
  rw [ite_self]
  exact he

theorem any_passed_map_alloc (pu : ℚ) (items : List CondItem) :
    (items.map (allocItem pu)).any (fun it => it.passed) =
      items.any (fun it => it.passed) := by
  induction items with
  | nil => rfl
  | cons i is ih => simp [allocItem, ih]

theorem distribute_cons (i : CondItem) (is : List CondItem) (T : ℚ) :
    distribute_condition_scores (i :: is) T =
      gapStage ((i :: is).map (allocItem
        (T / (if ((i :: is).map (fun it => clampW it.weight)).sum = 0 then 1
              else ((i :: is).map (fun it => clampW it.weight)).sum)))) T := rfl

/-- **C5.** For every item list and budget `T`: when at least one item passed,
the sum of the returned score fields equals `T` to within `1/100`; when no
item passed, the returned earned sum is exactly `0`. -/
theorem distribute_condition_scores_budget (items : List CondItem) (T : ℚ) :
    (items.any (fun it => it.passed) = true →
      |((distribute_condition_scores items T).1.map (fun it => it.score)).sum - T| ≤ 1/100) ∧
    (items.any (fun it => it.passed) = false →
      (distribute_condition_scores items T).2 = 0) := by
  cases items with
  | nil =>
    constructor
    · intro h
      simp at h
    · intro _
      rfl
  | cons i is =>
    rw [distribute_cons]
    have hcent : ∀ it ∈ (i :: is).map (allocItem
        (T / (if ((i :: is).map (fun it => clampW it.weight)).sum = 0 then 1
              else ((i :: is).map (fun it => clampW it.weight)).sum))), IsCent it.score := by
      intro it hit
      obtain ⟨x, hx, rfl⟩ := List.mem_map.mp hit
      exact round2_isCent _
    have hanymap : ((i :: is).map (allocItem
        (T / (if ((i :: is).map (fun it => clampW it.weight)).sum = 0 then 1
              else ((i :: is).map (fun it => clampW it.weight)).sum)))).any
          (fun it => it.passed) = (i :: is).any (fun it => it.passed) :=
      any_passed_map_alloc _ _
    constructor
    · intro hpass
      exact gapStage_bound _ T hcent (by rw [hanymap]; exact hpass)
    · intro hpass
      refine gapStage_zero _ T ?_ (by rw [hanymap]; exact hpass)
      intro it hit
      obtain ⟨x, hx, rfl⟩ := List.mem_map.mp hit
      have hx' : x.passed = false := by
        rcases List.any_eq_false.mp hpass x hx with h
        simpa using h
      simp [allocItem, hx', round2_zero]

/-- **C5 witness.**  The budget theorem applied at two concrete inputs: one
with a passing item (sum within a cent of the budget) and one with no passing
item (earned sum exactly zero). -/
theorem distribute_condition_scores_budget_witness :
    |((distribute_condition_scores [⟨true, 1⟩, ⟨false, 1⟩, ⟨true, 2⟩] 40).1.map
        (fun it => it.score)).sum - 40| ≤ 1/100 ∧
      (distribute_condition_scores [⟨false, 3⟩] 25).2 = 0 :=
  ⟨(distribute_condition_scores_budget [⟨true, 1⟩, ⟨false, 1⟩, ⟨true, 2⟩] 40).1 rfl,
   (distribute_condition_scores_budget [⟨false, 3⟩] 25).2 rfl⟩

/-- **C2 counterexample.**  On `[{passed, 1}, {failed, 1}, {passed, 2}]` with
`total_points = 40`, `distribute_condition_scores` does not return per-item
scores `[10, 0, 20]` with earned total `30`: the gap correction fires
(`gap = 10 ≥ 0.01`) and transfers the failed item's allocation. -/
theorem distribute_scenario_counterexample :
    ¬(((distribute_condition_scores [⟨true, 1⟩, ⟨false, 1⟩, ⟨true, 2⟩] 40).1.map
        (fun it => it.score)) = [10, 0, 20] ∧
      (distribute_condition_scores [⟨true, 1⟩, ⟨false, 1⟩, ⟨true, 2⟩] 40).2 = 30) := by
  intro h
  have h2 := h.2
  have h40 : (distribute_condition_scores [⟨true, 1⟩, ⟨false, 1⟩, ⟨true, 2⟩] 40).2 = 40 := by
    norm_num [distribute_condition_scores, gapStage, allocItem, applyGap, clampW, round2,
      roundHalfEven, List.isEmpty, Int.fract]
  rw [h40] at h2
  norm_num at h2

set_option maxRecDepth 8000 in
/-- **C2 (amended).**  On the scenario input the per-item allocations are
`[10, 10, 20]`, but the rounding-gap correction applies whenever the earned
sum differs from `total_points` by at least `0.01`, so the failed item's
10-point allocation is transferred onto the first passing item: the returned
scores are `[20, 0, 20]` and the earned total is `40`. -/
theorem distribute_scenario_amended :
    (([⟨true, 1⟩, ⟨false, 1⟩, ⟨true, 2⟩] : List CondItem).map
        (fun it => round2 ((40/4) * clampW it.weight))) = [10, 10, 20] ∧
      ((distribute_condition_scores [⟨true, 1⟩, ⟨false, 1⟩, ⟨true, 2⟩] 40).1.map
        (fun it => it.score)) = [20, 0, 20] ∧
      (distribute_condition_scores [⟨true, 1⟩, ⟨false, 1⟩, ⟨true, 2⟩] 40).2 = 40 := by
  refine ⟨?_, ?_, ?_⟩
  · simp only [List.map_cons, List.map_nil, clampW]
    norm_num [round2, roundHalfEven, Int.fract]
  · norm_num [distribute_condition_scores, gapStage, allocItem, applyGap, clampW, round2,
      roundHalfEven, List.isEmpty, Int.fract]
  · norm_num [distribute_condition_scores, gapStage, allocItem, applyGap, clampW, round2,
      roundHalfEven, List.isEmpty, Int.fract]

/-! ### `ai_feedback.generate_for_problem_type`: the `all_status` computation -/

/-- A condition-result record as consumed by the `all_status` computation of
`AIFeedbackService.generate_for_problem_type`: `it.get("is_required", True)`,
`it.get("passed", False)`, and the distributed `score` field summed into
`condition_points_earned`. -/
structure CondResultRec where
  is_required : Bool
  passed : Bool
  score : ℚ
deriving DecidableEq, Repr

/-- `all((not bool(it.get("is_required", True))) or bool(it.get("passed", False))
for it in cond_results)`. -/
def all_required_ok (conds : List CondResultRec) : Bool :=
  conds.all (fun it => !it.is_required || it.passed)

/-- `"success" if all_required_ok else "fail"`. -/
def all_status (conds : List CondResultRec) : String :=
  if all_required_ok conds then ("success") else ("fail")

theorem all_required_ok_iff (conds : List CondResultRec) :
    all_required_ok conds = true ↔
      ∀ it ∈ conds, it.is_required = true → it.passed = true := by
  unfold all_required_ok
  rw [List.all_eq_true]
  constructor
  · intro h it hit hreq
    have h2 := h it hit
    rw [hreq] at h2
    simpa using h2
  · intro h it hit
    cases hreq : it.is_required with
    | false => simp
    | true => simp [h it hit hreq]

theorem all_required_ok_map_score (conds : List CondResultRec) (f : CondResultRec → ℚ) :
    all_required_ok (conds.map (fun it => ⟨it.is_required, it.passed, f it⟩)) =
      all_required_ok conds := by
  induction conds with
  | nil => rfl
  | cons it rest ih =>
    unfold all_required_ok at ih ⊢
    simp only [List.map_cons, List.all_cons]
    rw [ih]

/-- **C8.** `all_status` is `"success"` exactly when every condition with
`is_required` has `passed` (conditions that are not required may fail), the
empty list yields `"success"`, and the value is independent of the numeric
`score` fields. -/
theorem all_status_spec (conds : List CondResultRec) :
    (all_status conds = "success" ↔
      ∀ it ∈ conds, it.is_required = true → it.passed = true) ∧
    all_status ([] : List CondResultRec) = "success" ∧
    (∀ f : CondResultRec → ℚ,
      all_status (conds.map (fun it => ⟨it.is_required, it.passed, f it⟩)) =
        all_status conds) := by
  refine ⟨?_, rfl, ?_⟩
  · unfold all_status
    cases hv : all_required_ok conds with
    | true =>
      rw [if_pos rfl]
      constructor
      · intro _
        exact (all_required_ok_iff conds).mp hv
      · intro _
        rfl
    | false =>
      rw [if_neg (by simp)]
      constructor
      · intro h
        exact absurd h (by decide)
      · intro hall
        have := (all_required_ok_iff conds).mpr hall
        rw [hv] at this
        cases this
  · intro f
    unfold all_status
    rw [all_required_ok_map_score]

/-- **C8 witness.**  The specification applied to a concrete list: one
required passing condition and one optional failing condition still give
`"success"`. -/
theorem all_status_spec_witness :
    all_status [⟨true, true, 5⟩, ⟨false, false, 3⟩] = "success" :=
  (all_status_spec [⟨true, true, 5⟩, ⟨false, false, 3⟩]).1.mpr (by decide)

/-! ### C9: the REGEX judging mode -/

/-- **C9.** `compare` in REGEX mode is a total function (the `re.error` path
of the source is the `none` branch of the abstract engine, caught and turned
into `False`, never an exception): an invalid pattern yields `false`, and a
valid pattern yields exactly the `fullmatch` verdict of the compiled pattern
(DOTALL and MULTILINE) on the trimmed output, with the pattern taken from the
trimmed expected string. -/
theorem compare_regex_spec (E : RegexEngine) (output expected : String) :
    (E.compile (pyStrip expected) = none →
      compare E output expected RatingMode.REGEX = false) ∧
    (∀ fm, E.compile (pyStrip expected) = some fm →
      compare E output expected RatingMode.REGEX = fm (pyStrip output)) := by
  constructor
  · intro h
    simp [compare, compare_regex, h]
  · intro fm h
    simp [compare, compare_regex, h]

/-- **C9 witness.**  A failing engine (every pattern invalid) gives `false`,
and a concrete engine matching exactly the two-character string gives the
fullmatch verdict on the trimmed output. -/
theorem compare_regex_spec_witness :
    compare ⟨fun _ => none⟩ ("abc") ("(") RatingMode.REGEX = false ∧
      compare ⟨fun _ => some (fun s => s = ("ab"))⟩ ("  ab ") ("ab") RatingMode.REGEX = true := by
  constructor
  · exact (compare_regex_spec ⟨fun _ => none⟩ ("abc") ("(")).1 rfl
  · rw [(compare_regex_spec ⟨fun _ => some (fun s => s = ("ab"))⟩ ("  ab ") ("ab")).2
      (fun s => s = ("ab")) rfl]
    rfl

/-! ### Execution sandbox: `code_compiler.py`

OS interactions (binary lookup, subprocess outcomes) are supplied by an
abstract environment; everything downstream of those outcomes is transcribed
from the source. -/

/-- `ExecutionStatus`. -/
inductive ExecStatus where
  | SUCCESS
  | TIMEOUT
  | ERROR
deriving DecidableEq, Repr

/-- `OverallStatus`.  `MIXED` stands for the source's member whose value is
the string "partial". -/
inductive OverallStatus where
  | SUCCESS
  | FAILED
  | MIXED
deriving DecidableEq, Repr

/-- `TestCaseInput`. -/
structure TestCaseInput where
  input : String
  expected_output : String
deriving DecidableEq, Repr

/-- `RunnerTestResult`. -/
structure RunnerTestResult where
  test_case_index : ℕ
  status : ExecStatus
  output : String
  error : Option String
  execution_time : ℚ
  memory_usage : ℕ
  passed : Bool
  input : String
  expected_output : String
deriving DecidableEq, Repr

/-- `CodeRunner.TIMEOUT` (seconds). -/
def TIMEOUT : ℚ := 5

/-- The five entries of `language_configs`. -/
inductive Language where
  | python
  | java
  | cpp
  | c
  | javascript
deriving DecidableEq, Repr

/-- Whether `language_configs[language]["compile_cmd"]` is not `None`. -/
def hasCompileCmd : Language → Bool
  | .java => true
  | .cpp => true
  | .c => true
  | .python => false
  | .javascript => false

/-- The three objects produced by `_sample_peak_rss`: the stop `Event`, the
sampler `Thread` and the mutable peak list. -/
inductive SamplerObj where
  | event
  | thread
  | peakList
deriving DecidableEq, Repr

/-- `return stop, t, peak` of `_sample_peak_rss`: the Event first, then the
Thread, then the peak list. -/
def sample_peak_rss_ret : SamplerObj × SamplerObj × SamplerObj :=
  (.event, .thread, .peakList)

/-- The Python exceptions relevant to `_compile_code`.  The attribute-error
message paraphrases the CPython text (which wraps the type name in single
quotation marks). -/
inductive PyErr where
  | timeoutExpired
  | attributeError (msg : String)
  | spawnFailed (msg : String)
deriving DecidableEq, Repr

/-- Dynamic dispatch of a `.set()` call: only the Event has the method;
calling it on anything else raises `AttributeError`. -/
def setMethod : SamplerObj → Except PyErr Unit
  | .event => .ok ()
  | .thread => .error (.attributeError ("Thread object has no attribute set"))
  | .peakList => .error (.attributeError ("list object has no attribute set"))

/-- Dynamic dispatch of a `.join()` call: only the Thread has the method. -/
def joinMethod : SamplerObj → Except PyErr Unit
  | .thread => .ok ()
  | .event => .error (.attributeError ("Event object has no attribute join"))
  | .peakList => .error (.attributeError ("list object has no attribute join"))

/-- Outcome of the compile subprocess, supplied by the environment. -/
inductive CompileOutcome where
  | completed (returncode : Int) (stderr : String)
  | timedOut
  | spawnError (msg : String)
deriving DecidableEq, Repr

/-- `try ... finally`: the finaliser runs after the body; an exception raised
by the finaliser replaces the body's outcome (return value or in-flight
exception alike). -/
def tryFinally {α : Type} (body : Except PyErr α) (cleanup : Except PyErr Unit) :
    Except PyErr α :=
  match cleanup with
  | .error e => .error e
  | .ok _ => body

/-- The try-block of `CodeRunner._compile_code`, from `Popen` to the return.
The source unpacks `_sample_peak_rss` as `peak, stop, t = ...` although the
function returns `(stop, t, peak)`: `peak` is bound to the Event, `stop` to
the Thread and `t` to the peak list, and the `finally` block then calls
`stop.set()` — a `.set()` on the Thread — and `t.join()`. -/
def compile_body (o : CompileOutcome) : Except PyErr (Bool × String × SamplerObj) :=
  match o with
  | .spawnError m => .error (.spawnFailed m)
  | _ =>
    let peak := sample_peak_rss_ret.1
    let stop := sample_peak_rss_ret.2.1
    let t := sample_peak_rss_ret.2.2
    let comm : Except PyErr (Int × String) :=
      match o with
      | .completed rc err => .ok (rc, err)
      | .timedOut => .error .timeoutExpired
      | .spawnError m => .error (.spawnFailed m)
    let cleanup : Except PyErr Unit := do
      setMethod stop
      joinMethod t
    match tryFinally comm cleanup with
    | .error e => .error e
    | .ok (rc, err) => .ok (decide (rc = 0), err, peak)

/-- `CodeRunner._compile_code`: languages without a compile command succeed
immediately; otherwise the try-block runs and its exception is converted by
the `except` clauses of the source (`TimeoutExpired` first, then any
`Exception` as `str(e)`).  The `.ok` branch is unreachable (see
`compile_body_always_errors`); the source would return the misbound `peak`
name (the Event object) as the third component there, reported here as `0`. -/
def compile_code (lang : Language) (o : CompileOutcome) : Bool × String × ℕ :=
  if hasCompileCmd lang = false then (true, "", 0)
  else
    match compile_body o with
    | .error .timeoutExpired => (false, ("Compilation timed out"), 0)
    | .error (.attributeError m) => (false, m, 0)
    | .error (.spawnFailed m) => (false, m, 0)
    | .ok (ok, err, _) => (ok, err, 0)

/-- The broken `finally` block makes every path of the compile try-block raise:
the spawn-failure path raises directly, and both the completed and the
timed-out paths are replaced by the `AttributeError` from `stop.set()` on the
Thread. -/
theorem compile_body_always_errors (o : CompileOutcome) :
    ∃ e, compile_body o = Except.error e := by
  cases o with
  | completed rc err =>
    exact ⟨.attributeError ("Thread object has no attribute set"), rfl⟩
  | timedOut =>
    exact ⟨.attributeError ("Thread object has no attribute set"), rfl⟩
  | spawnError m =>
    exact ⟨.spawnFailed m, rfl⟩

/-- Outcome of one spawned run subprocess, supplied by the environment. -/
inductive RunOutcome where
  | completed (stdout stderr : String) (elapsed_ms : ℚ) (peak : ℕ)
  | timedOut
  | raised (msg : String)

/-- Process-control actions issued by `_run_test_case`, in order.  The
`subprocess` API offers `kill`; the source never calls it. -/
inductive ProcAction where
  | spawn
  | communicate
  | samplerStop
  | samplerJoin
  | kill
deriving DecidableEq, Repr

/-- `CodeRunner._run_test_case`, together with the trace of process-control
actions it performs.  Completed subprocess: status SUCCESS, stdout stripped,
empty stderr becomes `None`, `passed` judged by `problem_Normalization.compare`
(the `_judge` fallback ladder collapses to its first branch for a well-typed
`RatingMode`).  `TimeoutExpired`: the TIMEOUT record with the full budget in
milliseconds and zeroed metrics; the sampler is stopped and joined but the
child process is never killed.  Any other exception: the ERROR record. -/
def run_test_case (E : RegexEngine) (o : RunOutcome) (tc : TestCaseInput)
    (i : ℕ) (mode : RatingMode) : RunnerTestResult × List ProcAction :=
  match o with
  | .completed stdout stderr ms peak =>
    ({ test_case_index := i
       status := .SUCCESS
       output := pyStrip stdout
       error := if stderr = "" then none else some stderr
       execution_time := ms
       memory_usage := peak
       passed := compare E (pyStrip stdout) tc.expected_output mode
       input := tc.input
       expected_output := tc.expected_output },
     [.spawn, .communicate, .samplerStop, .samplerJoin])
  | .timedOut =>
    ({ test_case_index := i
       status := .TIMEOUT
       output := ""
       error := some ("Execution timed out")
       execution_time := TIMEOUT * 1000
       memory_usage := 0
       passed := false
       input := tc.input
       expected_output := tc.expected_output },
     [.spawn, .communicate, .samplerStop, .samplerJoin])
  | .raised msg =>
    ({ test_case_index := i
       status := .ERROR
       output := ""
       error := some msg
       execution_time := 0
       memory_usage := 0
       passed := false
       input := tc.input
       expected_output := tc.expected_output },
     [.spawn])

/-- The environment of one `run_code` call: whether `_check_runtime` finds
every needed binary (with its message), the compile-subprocess outcome, and
each test case's run-subprocess outcome by index. -/
structure ExecEnv where
  runtimeOk : Bool
  runtimeMsg : String
  compileOutcome : CompileOutcome
  runOutcome : ℕ → RunOutcome

/-- The return value of `run_code`.  The missing-runtime return dict carries
no `compile_memory_usage` key, hence the `Option`. -/
structure RunCodeRet where
  success : Bool
  results : List RunnerTestResult
  overall_status : OverallStatus
  compile_memory_usage : Option ℕ

/-- The per-case loop and overall-status computation of `run_code`: one
`_run_test_case` per test case, sequentially, then SUCCESS / FAILED / MIXED
by the passed count. -/
def normalRun (E : RegexEngine) (env : ExecEnv) (test_cases : List TestCaseInput)
    (rating_mode : RatingMode) (compile_peak : ℕ) : RunCodeRet :=
  let results := test_cases.enum.map
    (fun p => (run_test_case E (env.runOutcome p.1) p.2 p.1 rating_mode).1)
  let passed_count := (results.filter (fun r => r.passed)).length
  { success := true
    results := results
    overall_status :=
      if passed_count = test_cases.length then .SUCCESS
      else if passed_count = 0 then .FAILED
      else .MIXED
    compile_memory_usage := some compile_peak }

/-- `CodeRunner.run_code`: missing runtime short-circuits into one uniform
ERROR result per test case; a compile failure short-circuits into a single
synthetic ERROR result; otherwise each test case runs in its own subprocess. -/
def run_code (E : RegexEngine) (env : ExecEnv) (code : String) (language : Language)
    (test_cases : List TestCaseInput) (rating_mode : RatingMode) : RunCodeRet :=
  if env.runtimeOk = false then
    { success := false
      results := test_cases.enum.map (fun p =>
        { test_case_index := p.1
          status := .ERROR
          output := ""
          error := some env.runtimeMsg
          execution_time := 0
          memory_usage := 0
          passed := false
          input := p.2.input
          expected_output := p.2.expected_output })
      overall_status := .FAILED
      compile_memory_usage := none }
  else
    if hasCompileCmd language then
      let cres := compile_code language env.compileOutcome
      if cres.1 = false then
        let synth : RunnerTestResult :=
          { test_case_index := 0
            status := .ERROR
            output := ""
            error := some (("Compilation error: ") ++ cres.2.1)
            execution_time := 0
            memory_usage := cres.2.2
            passed := false
            input := ""
            expected_output := "" }
        { success := false
          results := [synth]
          overall_status := .FAILED
          compile_memory_usage := some cres.2.2 }
      else
        normalRun E env test_cases rating_mode cres.2.2
    else
      normalRun E env test_cases rating_mode 0

theorem compile_code_fst_false (lang : Language) (h : hasCompileCmd lang = true)
    (o : CompileOutcome) : (compile_code lang o).1 = false := by
  obtain ⟨e, he⟩ := compile_body_always_errors o
  unfold compile_code
  rw [if_neg (by simp [h]), he]
  cases e <;> rfl

theorem normalRun_length (E : RegexEngine) (env : ExecEnv) (tcs : List TestCaseInput)
    (mode : RatingMode) (peak : ℕ) :
    (normalRun E env tcs mode peak).results.length = tcs.length := by
  unfold normalRun
  simp [List.length_map, List.enum_length]

theorem normalRun_status_passed (E : RegexEngine) (env : ExecEnv)
    (tcs : List TestCaseInput) (mode : RatingMode) (peak : ℕ)
    (r : RunnerTestResult) (hr : r ∈ (normalRun E env tcs mode peak).results)
    (hs : r.status = ExecStatus.TIMEOUT ∨ r.status = ExecStatus.ERROR) :
    r.passed = false := by
  unfold normalRun at hr
  simp only [] at hr
  obtain ⟨p, hp, rfl⟩ := List.mem_map.mp hr
  cases ho : env.runOutcome p.1 with
  | completed stdout stderr ms peak' =>
    rw [ho] at hs
    simp [run_test_case] at hs
  | timedOut => rfl
  | raised m => rfl

theorem run_code_compiled_runtime_ok (E : RegexEngine) (env : ExecEnv) (code : String)
    (lang : Language) (tcs : List TestCaseInput) (mode : RatingMode)
    (h : hasCompileCmd lang = true) (hok : env.runtimeOk = true) :
    (run_code E env code lang tcs mode).success = false ∧
    (run_code E env code lang tcs mode).results.length = 1 ∧
    ((run_code E env code lang tcs mode).results.map (fun r => r.status)) =
      [ExecStatus.ERROR] ∧
    ((run_code E env code lang tcs mode).results.map (fun r => r.passed)) = [false] := by
  unfold run_code
  rw [if_neg (by simp [hok]), if_pos h]
  simp only [compile_code_fst_false lang h env.compileOutcome]
  exact ⟨rfl, rfl, rfl, rfl⟩

/-- **C1 (code defect).**  On a run-subprocess timeout `_run_test_case`
returns the TIMEOUT record — `passed = false`, `execution_time` equal to the
full `TIMEOUT * 1000` millisecond budget (5000 ms), zeroed memory — but the
process-control trace is exactly spawn, communicate, sampler-stop,
sampler-join: no kill of the child or of any descendant ever happens
(`subprocess.Popen.communicate` does not kill the child on timeout, and the
source contains no `kill` or `terminate` call), contradicting the claimed
forcible termination on expiry. -/
theorem run_test_case_timeout_no_kill (E : RegexEngine) (tc : TestCaseInput)
    (i : ℕ) (mode : RatingMode) :
    run_test_case E RunOutcome.timedOut tc i mode =
      ({ test_case_index := i
         status := .TIMEOUT
         output := ""
         error := some ("Execution timed out")
         execution_time := TIMEOUT * 1000
         memory_usage := 0
         passed := false
         input := tc.input
         expected_output := tc.expected_output },
       [.spawn, .communicate, .samplerStop, .samplerJoin]) ∧
    TIMEOUT * 1000 = (5000 : ℚ) ∧
    ((run_test_case E RunOutcome.timedOut tc i mode).2.contains ProcAction.kill) = false := by
  exact ⟨rfl, by norm_num [TIMEOUT], rfl⟩

/-- **C3.**  For every compiled language (`compile_cmd` set: c, cpp, java)
the wrong-order unpacking `peak, stop, t = _sample_peak_rss(proc)` of the
returned `(stop, t, peak)` binds `stop` to the Thread, so the finally block's
`stop.set()` raises `AttributeError`; the surrounding `except` turns this
into a failed compilation for every compile-subprocess outcome, and `run_code`
(runtime present) therefore always returns the single synthetic
compilation-error result — regardless of whether the code would compile. -/
theorem compile_unpack_defect (lang : Language) (h : hasCompileCmd lang = true) :
    (∀ o, (compile_code lang o).1 = false) ∧
    ∀ (E : RegexEngine) (env : ExecEnv) (code : String)
      (tcs : List TestCaseInput) (mode : RatingMode),
      env.runtimeOk = true →
        (run_code E env code lang tcs mode).success = false ∧
        (run_code E env code lang tcs mode).results.length = 1 ∧
        ((run_code E env code lang tcs mode).results.map (fun r => r.status)) =
          [ExecStatus.ERROR] ∧
        ((run_code E env code lang tcs mode).results.map (fun r => r.passed)) = [false] := by
  refine ⟨compile_code_fst_false lang h, ?_⟩
  intro E env code tcs mode hok
  exact run_code_compiled_runtime_ok E env code lang tcs mode h hok

/-- **C3 witness.**  The defect theorem applied to the c language with a
timed-out compile subprocess. -/
theorem compile_unpack_defect_witness :
    (compile_code Language.c CompileOutcome.timedOut).1 = false ∧
      (run_code ⟨fun _ => none⟩
        ⟨true, "", CompileOutcome.timedOut, fun _ => RunOutcome.timedOut⟩
        "" Language.c [] RatingMode.HARD).results.length = 1 := by
  constructor
  · exact (compile_unpack_defect Language.c rfl).1 CompileOutcome.timedOut
  · exact ((compile_unpack_defect Language.c rfl).2 ⟨fun _ => none⟩
      ⟨true, "", CompileOutcome.timedOut, fun _ => RunOutcome.timedOut⟩
      "" [] RatingMode.HARD rfl).2.1

/-- **C6.**  `run_code` returns one result per test case: on the
missing-runtime path one uniform ERROR result per case, all carrying the same
message; on the interpreted path one result per case; and on the
compiled-language path (where compilation always fails, see
`compile_unpack_defect`) exactly one synthetic result regardless of the
test-case count. -/
theorem run_code_result_count (E : RegexEngine) (env : ExecEnv) (code : String)
    (language : Language) (tcs : List TestCaseInput) (mode : RatingMode) :
    (env.runtimeOk = false →
      (run_code E env code language tcs mode).results.length = tcs.length ∧
        ∀ r ∈ (run_code E env code language tcs mode).results,
          r.status = ExecStatus.ERROR ∧ r.error = some env.runtimeMsg ∧
            r.passed = false) ∧
    (env.runtimeOk = true →
      (hasCompileCmd language = false →
        (run_code E env code language tcs mode).results.length = tcs.length) ∧
      (hasCompileCmd language = true →
        (run_code E env code language tcs mode).results.length = 1)) := by
  constructor
  · intro hok
    unfold run_code
    rw [if_pos hok]
    constructor
    · simp [List.length_map, List.enum_length]
    · intro r hr
      obtain ⟨p, hp, rfl⟩ := List.mem_map.mp hr
      exact ⟨rfl, rfl, rfl⟩
  · intro hok
    constructor
    · intro hcc
      unfold run_code
      rw [if_neg (by simp [hok]), if_neg (by simp [hcc])]
      exact normalRun_length E env tcs mode 0
    · intro hcc
      exact (run_code_compiled_runtime_ok E env code language tcs mode hcc hok).2.1

/-- **C6 witness.**  The count theorem at concrete inputs: two test cases
give two uniform ERROR results when the runtime is missing, and a single
synthetic result for a compiled language with the runtime present. -/
theorem run_code_result_count_witness :
    (run_code ⟨fun _ => none⟩
      ⟨false, ("no runtime"), CompileOutcome.timedOut, fun _ => RunOutcome.timedOut⟩
      "" Language.python [⟨"1", "1"⟩, ⟨"2", "2"⟩] RatingMode.HARD).results.length = 2 ∧
    (run_code ⟨fun _ => none⟩
      ⟨true, "", CompileOutcome.timedOut, fun _ => RunOutcome.timedOut⟩
      "" Language.cpp [⟨"1", "1"⟩, ⟨"2", "2"⟩] RatingMode.HARD).results.length = 1 := by
  constructor
  · exact ((run_code_result_count ⟨fun _ => none⟩
      ⟨false, ("no runtime"), CompileOutcome.timedOut, fun _ => RunOutcome.timedOut⟩
      "" Language.python [⟨"1", "1"⟩, ⟨"2", "2"⟩] RatingMode.HARD).1 rfl).1
  · exact ((run_code_result_count ⟨fun _ => none⟩
      ⟨true, "", CompileOutcome.timedOut, fun _ => RunOutcome.timedOut⟩
      "" Language.cpp [⟨"1", "1"⟩, ⟨"2", "2"⟩] RatingMode.HARD).2 rfl).2 rfl

/-- **C7.**  On every path of `run_code` — missing runtime, compile failure,
per-case completion, per-case timeout, per-case exception — a result whose
status is TIMEOUT or ERROR has `passed = false`. -/
theorem run_code_status_passed (E : RegexEngine) (env : ExecEnv) (code : String)
    (language : Language) (tcs : List TestCaseInput) (mode : RatingMode)
    (r : RunnerTestResult)
    (hr : r ∈ (run_code E env code language tcs mode).results)
    (hs : r.status = ExecStatus.TIMEOUT ∨ r.status = ExecStatus.ERROR) :
    r.passed = false := by
  unfold run_code at hr
  by_cases hok : env.runtimeOk = false
  · rw [if_pos hok] at hr
    obtain ⟨p, hp, rfl⟩ := List.mem_map.mp hr
    rfl
  · rw [if_neg hok] at hr
    by_cases hcc : hasCompileCmd language
    · rw [if_pos hcc] at hr
      simp only [] at hr
      by_cases hv : (compile_code language env.compileOutcome).1 = false
      · rw [if_pos hv] at hr
        rw [List.mem_singleton.mp hr]
      · rw [if_neg hv] at hr
        exact normalRun_status_passed E env tcs mode _ r hr hs
    · rw [if_neg hcc] at hr
      exact normalRun_status_passed E env tcs mode 0 r hr hs

/-- **C7 witness.**  The invariant applied to the concrete missing-runtime
result of a one-case run. -/
theorem run_code_status_passed_witness :
    ({ test_case_index := 0
       status := .ERROR
       output := ""
       error := some ("no runtime")
       execution_time := 0
       memory_usage := 0
       passed := false
       input := ""
       expected_output := "" } : RunnerTestResult).passed = false :=
  run_code_status_passed ⟨fun _ => none⟩
    ⟨false, ("no runtime"), CompileOutcome.timedOut, fun _ => RunOutcome.timedOut⟩
    "" Language.python [⟨"", ""⟩] RatingMode.HARD _
    (List.mem_singleton.mpr rfl) (Or.inr rfl)

/-! ### Condition checker: `problem_condition_checker.py` -/

/-- `ProblemConditionCheck`. -/
structure ProblemConditionCheck where
  condition : String
  is_required : Bool
  check_type : String
  description : String
deriving DecidableEq, Repr

/-- `ConditionCheckResult`. -/
structure ConditionCheckResult where
  condition : String
  is_required : Bool
  check_type : String
  description : String
  passed : Bool
  feedback : String
deriving DecidableEq, Repr

/-- Exceptions the condition checker can raise.  Messages paraphrase the
CPython texts (which wrap names in single quotation marks). -/
inductive CheckErr where
  | attributeError (msg : String)
  | reError (msg : String)
deriving DecidableEq, Repr

/-- `s.lower()` (ASCII case folding). -/
def pyLower (s : String) : String :=
  ⟨s.data.map Char.toLower⟩

/-- Python substring membership `pat in s` on character lists. -/
def strContainsL (pat : List Char) : List Char → Bool
  | [] => pat.isEmpty
  | c :: rest => pat.isPrefixOf (c :: rest) || strContainsL pat rest

/-- Python substring membership `pat in s`. -/
def strContains (s pat : String) : Bool :=
  strContainsL pat.data s.data

/-- Suffix after the last occurrence of `pat`
(`condition_text.split("contains")[-1]` for a nonempty separator); `none`
when `pat` does not occur. -/
def afterLastAux (pat : List Char) : List Char → Option (List Char)
  | [] => none
  | c :: rest =>
    match afterLastAux pat rest with
    | some r => some r
    | none =>
      if pat.isPrefixOf (c :: rest) then some ((c :: rest).drop pat.length)
      else none

/-- `s.split(pat)[-1]`: the whole string when `pat` does not occur. -/
def afterLast (pat s : List Char) : List Char :=
  (afterLastAux pat s).getD s

/-- Digit-string accumulation, exact. -/
def digitsToNat (ds : List Char) : ℕ :=
  ds.foldl (fun acc c => 10 * acc + (c.toNat - 48)) 0

/-- The first match of the decimal-number regex used by the performance
check, converted exactly as Python `float()` would: an integer digit run and
an optional fractional part introduced by a dot followed by a digit. -/
def firstNumber : List Char → Option ℚ
  | [] => none
  | c :: rest =>
    if c.isDigit then
      let intDigits := (c :: rest).takeWhile Char.isDigit
      let after1 := (c :: rest).dropWhile Char.isDigit
      match after1 with
      | '.' :: d :: _ =>
        if d.isDigit then
          let fracDigits := (after1.drop 1).takeWhile Char.isDigit
          some ((digitsToNat intDigits : ℚ) +
            (digitsToNat fracDigits : ℚ) / (10 : ℚ) ^ fracDigits.length)
        else some ((digitsToNat intDigits : ℚ))
      | _ => some ((digitsToNat intDigits : ℚ))
    else firstNumber rest

/-- The array-format `re.match` of the output-validation check: an opening
square bracket, then non-newline characters, then a closing square bracket at
the end of the string or just before one final trailing newline (the default
meaning of the end anchor without MULTILINE). -/
def arrayFormat (l : List Char) : Bool :=
  match l with
  | '[' :: rest =>
    (match rest.getLast? with
     | some ']' => rest.dropLast.all (fun c => decide (c ≠ '\n'))
     | some '\n' =>
       (match rest.dropLast.getLast? with
        | some ']' => rest.dropLast.dropLast.all (fun c => decide (c ≠ '\n'))
        | _ => false)
     | _ => false)
  | _ => false

/-- `str.isdigit()` restricted to ASCII digits: nonempty and all digits. -/
def pyIsDigit (l : List Char) : Bool :=
  !l.isEmpty && l.all Char.isDigit

/-- Capturing-group count of a regex pattern: unescaped left parens not
followed by a question mark and outside character classes.  The second
argument tracks whether the scan is inside a class. -/
def patGroups : List Char → Bool → ℕ
  | [], _ => 0
  | '\\' :: _ :: rest, inClass => patGroups rest inClass
  | '[' :: rest, false => patGroups rest true
  | ']' :: rest, true => patGroups rest false
  | '(' :: '?' :: rest, false => patGroups rest false
  | '(' :: rest, false => 1 + patGroups rest false
  | _ :: rest, inClass => patGroups rest inClass

/-- Largest single-digit numeric backreference of a pattern (outside
character classes). -/
def patMaxBackref : List Char → Bool → ℕ
  | [], _ => 0
  | '\\' :: c :: rest, inClass =>
    if !inClass && c.isDigit then max (c.toNat - 48) (patMaxBackref rest inClass)
    else patMaxBackref rest inClass
  | '[' :: rest, false => patMaxBackref rest true
  | ']' :: rest, true => patMaxBackref rest false
  | _ :: rest, inClass => patMaxBackref rest inClass

/-- The group-reference validation `re.compile` performs: every numeric
backreference must name an existing capturing group, otherwise `re.error`
is raised before any matching. -/
def reGroupRefsOk (pat : String) : Bool :=
  patMaxBackref pat.data false ≤ patGroups pat.data false

/-- The recursion-detection pattern of `check_code_analysis_condition`:
`def\s+\w+\s*\([^)]*\)\s*:.*\1\s*\(` — it contains the backreference `\1`
but no capturing group. -/
def recursionPattern : String :=
  "def\\s+\\w+\\s*\\([^)]*\\)\\s*:.*\\1\\s*\\("

/-- The abstract `re.search` verdict for patterns that do compile. -/
structure ReOracle where
  search : String → String → Bool

/-- Accumulator pass of `str.split()` with no separator: split on whitespace
runs, dropping empty fragments.  The accumulator holds the current word
reversed. -/
def splitWsAux : List Char → List Char → List String
  | [], acc => if acc.isEmpty then [] else [⟨acc.reverse⟩]
  | c :: rest, acc =>
    if isPySpace c then
      if acc.isEmpty then splitWsAux rest []
      else (⟨acc.reverse⟩ : String) :: splitWsAux rest []
    else splitWsAux rest (c :: acc)

/-- `s.split()`. -/
def pySplitWs (s : String) : List String :=
  splitWsAux s.data []

/-- Builds the result record shared by every branch of the checker. -/
def mkCheckResult (cond : ProblemConditionCheck) (passed : Bool)
    (feedback : String) : ConditionCheckResult :=
  { condition := cond.condition
    is_required := cond.is_required
    check_type := cond.check_type
    description := cond.description
    passed := passed
    feedback := feedback }

/-- `ConditionChecker.check_code_analysis_condition`.  The recursion branch
calls `re.search` on `recursionPattern`, whose backreference names a
nonexistent group, so the call raises `re.error` whenever that branch is
reached.  The single-quote characters of the source's f-strings are omitted
from the feedback texts. -/
def check_code_analysis_condition (O : ReOracle) (cond : ProblemConditionCheck)
    (code : String) : Except CheckErr ConditionCheckResult :=
  let ct := pyLower cond.condition
  let cl := pyLower code
  if strContains ct ("for loop") then
    let passed := strContains cl ("for ")
    .ok (mkCheckResult cond passed
      (if passed then ("코드에 for 루프가 포함되어 있습니다.")
       else ("코드에 for 루프가 필요합니다.")))
  else if strContains ct ("while loop") then
    let passed := strContains cl ("while ")
    .ok (mkCheckResult cond passed
      (if passed then ("코드에 while 루프가 포함되어 있습니다.")
       else ("코드에 while 루프가 필요합니다.")))
  else if strContains ct ("function") then
    let passed := strContains cl ("def ") || strContains cl ("function")
    .ok (mkCheckResult cond passed
      (if passed then ("코드에 함수가 정의되어 있습니다.")
       else ("코드에 함수 정의가 필요합니다.")))
  else if strContains ct ("recursion") then
    if reGroupRefsOk recursionPattern then
      let passed := O.search recursionPattern code
      .ok (mkCheckResult cond passed
        (if passed then ("코드에 재귀 함수가 포함되어 있습니다.")
         else ("코드에 재귀 함수가 필요합니다.")))
    else .error (.reError ("invalid group reference"))
  else if strContains ct ("time complexity") then
    if strContains ct ("o(n)") then
      let passed := strContains cl ("for ") && strContains cl ("in ")
      .ok (mkCheckResult cond passed
        (if passed then ("O(n) 시간 복잡도를 만족합니다.")
         else ("O(n) 시간 복잡도가 필요합니다.")))
    else if strContains ct ("o(1)") then
      let passed := !strContains cl ("for ") && !strContains cl ("while ")
      .ok (mkCheckResult cond passed
        (if passed then ("O(1) 시간 복잡도를 만족합니다.")
         else ("O(1) 시간 복잡도가 필요합니다.")))
    else .ok (mkCheckResult cond true ("시간 복잡도 조건을 확인할 수 없습니다."))
  else
    let passed := (pySplitWs ct).all (fun kw => strContains cl kw)
    .ok (mkCheckResult cond passed
      (if passed then (("조건 ") ++ cond.condition ++ (" 을 만족합니다."))
       else (("조건 ") ++ cond.condition ++ (" 이 필요합니다."))))

/-- `ConditionChecker.check_output_validation_condition` (pure: no branch can
raise). -/
def check_output_validation_condition (cond : ProblemConditionCheck)
    (output expected : String) : ConditionCheckResult :=
  let ct := pyLower cond.condition
  if strContains ct ("exact match") then
    let passed := decide (pyStrip output = pyStrip expected)
    mkCheckResult cond passed
      (if passed then ("출력이 정확히 일치합니다.") else ("출력이 정확히 일치하지 않습니다."))
  else if strContains ct ("contains") then
    let target : String := pyStrip ⟨afterLast ("contains" : String).data ct.data⟩
    let passed := strContains output target
    mkCheckResult cond passed
      (if passed then (("출력에 ") ++ target ++ (" 이 포함되어 있습니다."))
       else (("출력에 ") ++ target ++ (" 이 포함되어야 합니다.")))
  else if strContains ct ("format") then
    if strContains ct ("array") then
      let passed := arrayFormat (pyStrip output).data
      mkCheckResult cond passed
        (if passed then ("출력이 배열 형식입니다.") else ("출력이 배열 형식이어야 합니다."))
    else if strContains ct ("number") then
      let passed := pyIsDigit (pyStrip output).data
      mkCheckResult cond passed
        (if passed then ("출력이 숫자 형식입니다.") else ("출력이 숫자 형식이어야 합니다."))
    else mkCheckResult cond true ("형식 조건을 확인할 수 없습니다.")
  else mkCheckResult cond true ("출력 검증 조건을 확인할 수 없습니다.")

/-- `ConditionChecker.check_performance_condition`.  The time-limit branch
parses the first number out of the condition text with
`re.search(...).group(1)`: when the text contains no number the search
returns `None` and the attribute access raises `AttributeError`. -/
def check_performance_condition (cond : ProblemConditionCheck)
    (execution_time : ℚ) : Except CheckErr ConditionCheckResult :=
  let ct := pyLower cond.condition
  if strContains ct ("time limit") then
    match firstNumber ct.data with
    | none => .error (.attributeError ("NoneType object has no attribute group"))
    | some time_limit =>
      let passed := decide (execution_time ≤ time_limit)
      .ok (mkCheckResult cond passed
        (if passed then
          (("실행 시간(") ++ toString execution_time ++ ("ms)이 제한(") ++
            toString time_limit ++ ("ms) 내에 있습니다."))
         else
          (("실행 시간(") ++ toString execution_time ++ ("ms)이 제한(") ++
            toString time_limit ++ ("ms)을 초과했습니다."))))
  else .ok (mkCheckResult cond true ("성능 조건을 확인할 수 없습니다."))

/-- One iteration of the `check_all_conditions` loop: dispatch on
`check_type`, unknown types pass through as satisfied. -/
def dispatch_condition (O : ReOracle) (code out_str exp_str : String)
    (execution_time : ℚ) (cond : ProblemConditionCheck) :
    Except CheckErr ConditionCheckResult :=
  if cond.check_type = "code_analysis" then
    check_code_analysis_condition O cond code
  else if cond.check_type = "output_validation" then
    .ok (check_output_validation_condition cond out_str exp_str)
  else if cond.check_type = "performance" then
    check_performance_condition cond execution_time
  else
    .ok (mkCheckResult cond true ("조건을 확인할 수 없습니다."))

/-- `ConditionChecker.check_all_conditions`: normalise the optional output
strings (`output or ""`), then evaluate each condition in order; an exception
in any branch propagates out of the loop. -/
def check_all_conditions (O : ReOracle) (conditions : List ProblemConditionCheck)
    (code : String) (output expected_output : Option String)
    (execution_time : ℚ) : Except CheckErr (List ConditionCheckResult) :=
  conditions.mapM
    (dispatch_condition O code (output.getD "") (expected_output.getD "") execution_time)

/-- **C4 (code defect).**  `check_all_conditions` raises instead of
returning a record per condition, for every regex oracle: a performance
condition whose text contains "time limit" but no number makes
`re.search(r'(\d+(?:\.\d+)?)', ...)` return `None`, so `.group(1)` raises
`AttributeError`; and any code-analysis condition whose text mentions
"recursion" reaches `re.search` on a pattern whose backreference `\1` names
a nonexistent group, which raises `re.error` during compilation, before any
matching.  Either input refutes the never-raises contract. -/
theorem check_all_conditions_raises (O : ReOracle) :
    check_all_conditions O [⟨("time limit"), true, ("performance"), ("")⟩]
        ("") none none 100 =
      .error (.attributeError ("NoneType object has no attribute group")) ∧
    check_all_conditions O [⟨("use recursion"), true, ("code_analysis"), ("")⟩]
        ("def f(): f()") none none 0 =
      .error (.reError ("invalid group reference")) :=
  ⟨rfl, rfl⟩

end Grading
